import Mathlib

/-!
Shallow embedding of the order-checkout subsystem of the `book-store`
repository (`src/controllers/orderController.js`), together with proofs of
the specification's claims about it.

The store state (Mongo collections `books`, `users`, `carts`, `orders`) is
modelled as lists of records; each Mongoose call used by the controller is
modelled as one pure operation on that state.  `createOrder` is the
sequential semantics of the controller's checkout handler; the points where
an `await` can reject (or a conditional update can return `null` because of
a concurrent writer) are driven by an explicit fault schedule `Faults`, so
that the failure/compensation paths of the `try`/`catch` block are just as
executable as the success path.

Money (`price`) and quantities are naturals; `stock` and `balance` are
integers, because Mongo `$inc` itself cannot enforce non-negativity — the
invariant `stock ≥ 0` is proved, not assumed by a type.
-/

namespace BookStore

/-- A document of the `books` collection (fields used by the checkout core:
`_id`, `title`, `price`, `stock`). -/
structure Book where
  id : Nat
  title : String
  price : Nat
  stock : Int
  deriving Repr, DecidableEq

/-- A document of the `users` collection (only `_id` and `balance` matter to
checkout). -/
structure UserAcct where
  id : Nat
  balance : Int
  deriving Repr, DecidableEq

/-- A document of the `carts` collection: `{ user, book, quantity }`. -/
structure CartLine where
  user : Nat
  book : Nat
  quantity : Nat
  deriving Repr, DecidableEq

/-- One entry of `Order.items`: `{ book, quantity, price }` (snapshot price). -/
structure OrderItem where
  book : Nat
  quantity : Nat
  price : Nat
  deriving Repr, DecidableEq

/-- A document of the `orders` collection.  `status` is a plain string
validated against `validStatuses`, as in the controller. -/
structure Order where
  id : Nat
  user : Nat
  items : List OrderItem
  totalPrice : Nat
  status : String
  deriving Repr, DecidableEq

/-- The database state seen by the controller.  Orders are kept in insertion
order (`Order.create` appends), so "sort by `createdAt` descending" is
`List.reverse`. -/
structure Store where
  books : List Book
  users : List UserAcct
  carts : List CartLine
  orders : List Order
  nextOrderId : Nat
  deriving Repr, DecidableEq

/-- `Book.findById(bid)`. -/
def findBook (s : Store) (bid : Nat) : Option Book :=
  s.books.find? (fun b => b.id == bid)

/-- `User.findById(uid)`. -/
def findUser (s : Store) (uid : Nat) : Option UserAcct :=
  s.users.find? (fun u => u.id == uid)

/-- `Order.findById(oid)`. -/
def findOrder (s : Store) (oid : Nat) : Option Order :=
  s.orders.find? (fun o => o.id == oid)

/-- `Cart.find({ user: uid })`, preserving collection order (the cart read
order that fixes the commit order). -/
def cartFindByUser (s : Store) (uid : Nat) : List CartLine :=
  s.carts.filter (fun c => c.user == uid)

/-- Apply `g` to the (unique) book with id `bid`; the shape shared by every
`Book.*Update` call of the controller. -/
def updateBook (s : Store) (bid : Nat) (g : Book → Book) : Store :=
  { s with books := s.books.map (fun b => if b.id == bid then g b else b) }

/-- `Book.findOneAndUpdate({_id: bid, stock: {$gte: qty}}, {$inc: {stock: -qty}},
{new: true})`: decrement only if the guard matches at the moment of the
write; `none` means no document matched and nothing was updated. -/
def condDecrementStock (s : Store) (bid : Nat) (qty : Nat) :
    Option Book × Store :=
  match findBook s bid with
  | none => (none, s)
  | some b =>
    if (qty : Int) ≤ b.stock then
      (some { b with stock := b.stock - qty },
       updateBook s bid (fun x => { x with stock := x.stock - qty }))
    else (none, s)

/-- `Book.findByIdAndUpdate(bid, {$inc: {stock: qty}})` (the rollback path). -/
def incrementStock (s : Store) (bid : Nat) (qty : Nat) : Store :=
  updateBook s bid (fun x => { x with stock := x.stock + qty })

/-- `User.findByIdAndUpdate(uid, {$inc: {balance: -amt}})`. -/
def debitBalance (s : Store) (uid : Nat) (amt : Nat) : Store :=
  { s with
    users := s.users.map fun u =>
      if u.id == uid then { u with balance := u.balance - amt } else u }

/-- One record of the controller's `stockErrors` array:
`{bookId, title, available, requested}`. -/
structure StockErr where
  bookId : Nat
  title : String
  available : Int
  requested : Nat
  deriving Repr, DecidableEq

/-- One record of the controller's `processedItems` array:
`{bookId, quantity, book: updateResult}`. -/
structure ProcessedItem where
  bookId : Nat
  quantity : Nat
  book : Book
  deriving Repr, DecidableEq

/-- The errors that can be `throw`n inside the `try` block (or by a rejected
compensation `await` in the `catch` block). -/
inductive CheckoutErr where
  /-- `throw new Error("Insufficient stock for book: " + title)` after a
  `findOneAndUpdate` returned `null`. -/
  | raceStock (title : String)
  /-- the balance `findByIdAndUpdate` rejected -/
  | debitErr
  /-- `Order.create` rejected -/
  | createErr
  /-- `Cart.deleteMany` rejected -/
  | clearErr
  /-- a compensating `findByIdAndUpdate` in the `catch` block rejected; this
  rejection propagates out of the handler in place of the original error -/
  | compErr (bookId : Nat)
  /-- a TypeError from dereferencing a `null` re-fetched book (dead in the
  sequential model, kept for fidelity) -/
  | typeErr
  deriving Repr, DecidableEq

/-- The HTTP-level outcome of `createOrder`. -/
inductive CheckoutRes where
  | created (order : Order)                                -- 201
  | emptyCart                                              -- 400
  | userNotFound                                           -- 404
  | bookNotFound                                           -- 404 "One or more books not found"
  | insufficientStock (stockErrors : List StockErr)        -- 400
  | insufficientBalance (required : Nat) (available : Int) -- 400
  | thrown (e : CheckoutErr)                               -- 500 via asyncHandler
  deriving Repr, DecidableEq

/-- Which `await`s of one `createOrder` run fail.  `decFail i` makes the
`i`-th conditional stock decrement return `null` without mutating (the
observable effect of losing the commit-time race); `compFail j` makes the
`j`-th compensating increment reject without mutating. -/
structure Faults where
  decFail : Nat → Bool
  debitFail : Bool
  createFail : Bool
  clearFail : Bool
  compFail : Nat → Bool

/-- The fault-free schedule. -/
def noFaults : Faults :=
  ⟨fun _ => false, false, false, false, fun _ => false⟩

/-- The validation pass of `createOrder` (lines 22–45): walk the populated
cart accumulating `stockErrors` and `calculatedTotalPrice`; a `null`
populated book aborts with the 404 path. -/
def validatePass (s : Store) :
    List (CartLine × Option Book) → Except CheckoutRes (List StockErr × Nat)
  | [] => .ok ([], 0)
  | (line, ob) :: rest =>
    match ob with
    | none => .error .bookNotFound
    | some book =>
      -- `const currentBook = await Book.findById(book._id).select("stock price")`
      let currentBook := findBook s book.id
      let insufficient : Bool :=
        match currentBook with
        | none => true
        | some cb => cb.stock < (line.quantity : Int)
      let newErrs : List StockErr :=
        if insufficient then
          [{ bookId := book.id, title := book.title,
             available := match currentBook with
                          | some cb => cb.stock
                          | none => 0,
             requested := line.quantity }]
        else []
      -- `calculatedTotalPrice += currentBook.price * cartItem.quantity` would
      -- raise a TypeError on a null `currentBook`; unreachable sequentially.
      match currentBook with
      | none => .error (.thrown .typeErr)
      | some cb =>
        match validatePass s rest with
        | .error e => .error e
        | .ok (errs, total) =>
          .ok (newErrs ++ errs, cb.price * line.quantity + total)

/-- The commit loop of `createOrder` (lines 65–84): conditional decrement per
cart line, pushing each success onto `processedItems`; the first failure
(injected fault or guard miss) throws. -/
def commitLoop (f : Faults) :
    List (CartLine × Option Book) → Nat → Store → List ProcessedItem →
    Store × List ProcessedItem × Option CheckoutErr
  | [], _, s, acc => (s, acc, none)
  | (line, ob) :: rest, i, s, acc =>
    match ob with
    | none => (s, acc, some .typeErr)
    | some book =>
      if f.decFail i then (s, acc, some (.raceStock book.title))
      else
        match condDecrementStock s book.id line.quantity with
        | (none, s₁) => (s₁, acc, some (.raceStock book.title))
        | (some updated, s₁) =>
          commitLoop f rest (i + 1) s₁
            (acc ++ [{ bookId := book.id, quantity := line.quantity, book := updated }])

/-- The rollback loop of the `catch` block (lines 119–123).  Each iteration
`await`s `Book.findByIdAndUpdate`; a rejection (fault `compFail j`) leaves
the loop immediately — the remaining items are *not* compensated — and the
rejection's book id is reported so the caller sees that failure. -/
def compensateLoop (f : Faults) :
    List ProcessedItem → Nat → Store → Store × Option Nat
  | [], _, s => (s, none)
  | item :: rest, j, s =>
    if f.compFail j then (s, some item.bookId)
    else compensateLoop f rest (j + 1) (incrementStock s item.bookId item.quantity)

/-- The `catch (error)` block: roll back `processedItems`, then re-throw.  If
a compensating `await` itself rejected, that rejection is what escapes the
handler, replacing the original error. -/
def catchBlock (f : Faults) (processed : List ProcessedItem) (e : CheckoutErr)
    (s : Store) : CheckoutRes × Store :=
  match compensateLoop f processed 0 s with
  | (s', none) => (.thrown e, s')
  | (s', some bid) => (.thrown (.compErr bid), s')

/-- The `try`/`catch` block of `createOrder` (lines 63–126): the per-line
conditional decrements, the balance debit, `Order.create`, the cart clear,
and — on any thrown error — the rollback of `processedItems`. -/
def commitPhase (uid : Nat) (f : Faults) (cartItems : List (CartLine × Option Book))
    (calculatedTotalPrice : Nat) (s : Store) : CheckoutRes × Store :=
  match commitLoop f cartItems 0 s [] with
  | (s₁, processed, some e) => catchBlock f processed e s₁
  | (s₁, processed, none) =>
    if f.debitFail then catchBlock f processed .debitErr s₁
    else
      let s₂ := debitBalance s₁ uid calculatedTotalPrice
      let orderItems := processed.map
        (fun it => OrderItem.mk it.bookId it.quantity it.book.price)
      if f.createFail then catchBlock f processed .createErr s₂
      else
        let newOrder : Order :=
          { id := s₂.nextOrderId, user := uid, items := orderItems,
            totalPrice := calculatedTotalPrice, status := "pending" }
        let s₃ := { s₂ with orders := s₂.orders ++ [newOrder],
                            nextOrderId := s₂.nextOrderId + 1 }
        if f.clearFail then catchBlock f processed .clearErr s₃
        else
          let s₄ := { s₃ with carts := s₃.carts.filter (fun c => !(c.user == uid)) }
          (.created newOrder, s₄)

/-- `createOrder` (orderController.js lines 7–127), sequential semantics:
returns the HTTP outcome and the final store state. -/
def createOrder (s : Store) (uid : Nat) (f : Faults) : CheckoutRes × Store :=
  -- `Cart.find({user}).populate("book")`
  let cartItems := (cartFindByUser s uid).map (fun l => (l, findBook s l.book))
  if cartItems.length = 0 then (.emptyCart, s)
  else
    match findUser s uid with
    | none => (.userNotFound, s)
    | some user =>
      match validatePass s cartItems with
      | .error r => (r, s)
      | .ok (stockErrors, calculatedTotalPrice) =>
        if stockErrors.length > 0 then (.insufficientStock stockErrors, s)
        else if (calculatedTotalPrice : Int) > user.balance then
          (.insufficientBalance calculatedTotalPrice user.balance, s)
        else commitPhase uid f cartItems calculatedTotalPrice s

/-- `Σ price×quantity` over a user's cart at the current book prices (the
value `calculatedTotalPrice` computes when every book resolves). -/
def cartTotal (s : Store) (uid : Nat) : Nat :=
  ((cartFindByUser s uid).map
    (fun l => (match findBook s l.book with
               | some b => b.price
               | none => 0) * l.quantity)).sum

/-- The `stockErrors` array the validation pass accumulates: one record per
under-stocked (or unresolvable) cart line, in cart order. -/
def shortageRecords (s : Store) (uid : Nat) : List StockErr :=
  (cartFindByUser s uid).filterMap (fun l =>
    match findBook s l.book with
    | some b =>
      if b.stock < (l.quantity : Int) then
        some ⟨b.id, b.title, b.stock, l.quantity⟩
      else none
    | none => none)

section OrderQueries

/-- The status enum accepted by `updateOrderStatus`. -/
def validStatuses : List String :=
  ["pending", "processing", "shipped", "delivered", "cancelled"]

/-- Outcome of `updateOrderStatus`. -/
inductive StatusRes where
  | invalidStatus (valid : List String) -- 400
  | orderMissing                        -- 404
  | updated (order : Order)             -- 200
  deriving Repr, DecidableEq

/-- `updateOrderStatus` (lines 168–201): validate the status string, then
`Order.findByIdAndUpdate(orderId, {status}, {new: true})`. -/
def updateOrderStatus (s : Store) (oid : Nat) (status : String) :
    StatusRes × Store :=
  if !(validStatuses.contains status) then (.invalidStatus validStatuses, s)
  else
    match findOrder s oid with
    | none => (.orderMissing, s)
    | some o =>
      (.updated { o with status := status },
       { s with
         orders := s.orders.map fun x =>
           if x.id == oid then { x with status := status } else x })

/-- The pagination block computed by `getAllOrders`. -/
structure Pagination where
  currentPage : Nat
  totalPages : Nat
  totalOrders : Nat
  hasNext : Bool
  hasPrev : Bool
  deriving Repr, DecidableEq

/-- The optional `status` query filter of `getAllOrders`. -/
def matchesStatus (status? : Option String) (o : Order) : Bool :=
  match status? with
  | none => true
  | some st => o.status == st

/-- `getAllOrders` (lines 203–235): the page of orders actually returned by
the skip/limit query over the `createdAt:-1` sort, plus the pagination
block.  `Math.ceil(totalOrders / limit)` is the ceiling of the rational
quotient. -/
def getAllOrders (s : Store) (status? : Option String) (page limit : Nat) :
    List Order × Pagination :=
  let skip := (page - 1) * limit
  let matching := s.orders.filter (matchesStatus status?)
  let orders := ((matching.reverse).drop skip).take limit
  let totalOrders := matching.length
  (orders,
   { currentPage := page,
     totalPages := (Int.ceil ((totalOrders : ℚ) / (limit : ℚ))).toNat,
     totalOrders := totalOrders,
     hasNext := page * limit < totalOrders,
     hasPrev := 1 < page })

/-- Outcome of `getOrderById`. -/
inductive OrderViewRes where
  | invalidRoute          -- 400 "Invalid route. Use /api/orders for all orders"
  | orderMissing          -- 404
  | forbidden             -- 403
  | ok (order : Order)    -- 200
  deriving Repr, DecidableEq

/-- `getOrderById` (lines 140–166): the reserved id `"all"` short-circuits to
400 before any store lookup. -/
def getOrderById (s : Store) (callerId : Nat) (orderId : String) : OrderViewRes :=
  if orderId == "all" then .invalidRoute
  else
    match s.orders.find? (fun o => toString o.id == orderId) with
    | none => .orderMissing
    | some o => if o.user == callerId then .ok o else .forbidden

end OrderQueries

/-! ### Elementwise view of the stock mutations

`updateBook` is a `List.map`, so a run of stock decrements (the commit loop)
followed by the matching increments (the rollback loop) is a composition of
maps; the functions below give the per-book semantics of those runs. -/

/-- Effect on one book of the decrement recorded by one processed item. -/
def decStep (it : ProcessedItem) (b : Book) : Book :=
  if b.id == it.bookId then { b with stock := b.stock - it.quantity } else b

/-- Effect on one book of the compensating increment for one processed item. -/
def incStep (it : ProcessedItem) (b : Book) : Book :=
  if b.id == it.bookId then { b with stock := b.stock + it.quantity } else b

/-- Effect on one book of all decrements recorded in `ps`, in order. -/
def decsFun (ps : List ProcessedItem) (b : Book) : Book :=
  ps.foldl (fun x it => decStep it x) b

/-- Effect on one book of all compensating increments for `ps`, in order. -/
def incsFun (ps : List ProcessedItem) (b : Book) : Book :=
  ps.foldl (fun x it => incStep it x) b

/-! ### Concrete stores used to witness the theorems on closed inputs -/

/-- A small populated store: three books, four accounts, carts staged for a
successful checkout (user 100), an under-balance checkout (user 200), an
exact-balance checkout (user 300), an under-stocked cart (user 400) and a
three-line checkout (user 500). -/
def wStore : Store :=
  { books := [⟨1, "Dune", 10, 5⟩, ⟨2, "Hobbit", 7, 3⟩, ⟨3, "Ulysses", 20, 1⟩],
    users := [⟨100, 1000⟩, ⟨200, 5⟩, ⟨300, 27⟩, ⟨400, 50⟩, ⟨500, 100⟩],
    carts := [⟨100, 1, 2⟩, ⟨100, 2, 1⟩, ⟨200, 1, 1⟩, ⟨300, 1, 2⟩, ⟨300, 2, 1⟩,
              ⟨400, 1, 9⟩, ⟨500, 1, 1⟩, ⟨500, 2, 1⟩, ⟨500, 3, 1⟩],
    orders := [⟨50, 100, [], 10, "pending"⟩],
    nextOrderId := 51 }

/-- A store holding 25 orders, for the pagination witness. -/
def w25Store : Store :=
  { books := [], users := [], carts := [],
    orders := (List.range 25).map (fun i => ⟨i, 100, [], 5, "pending"⟩),
    nextOrderId := 25 }

/-- Fault schedule failing the decrement at position `k`. -/
def decFailAt (k : Nat) : Faults :=
  { noFaults with decFail := fun i => i == k }

/-- Fault schedule failing the decrement at position `k` and the compensating
increment at position 0. -/
def decFailAtCompFail0 (k : Nat) : Faults :=
  { noFaults with decFail := fun i => i == k, compFail := fun j => j == 0 }

/-- Fault schedule failing only `Order.create`. -/
def createFailOnly : Faults :=
  { noFaults with createFail := true }

section BasicLemmas

theorem decStep_id (it : ProcessedItem) (b : Book) : (decStep it b).id = b.id := by
  unfold decStep; split <;> rfl

theorem incStep_id (it : ProcessedItem) (b : Book) : (incStep it b).id = b.id := by
  unfold incStep; split <;> rfl

theorem decsFun_id (ps : List ProcessedItem) (b : Book) :
    (decsFun ps b).id = b.id := by
  induction ps generalizing b with
  | nil => rfl
  | cons p ps ih => simpa [decsFun, List.foldl_cons, decStep_id] using
      (ih (decStep p b)).trans (decStep_id p b)

theorem incsFun_id (ps : List ProcessedItem) (b : Book) :
    (incsFun ps b).id = b.id := by
  induction ps generalizing b with
  | nil => rfl
  | cons p ps ih => simpa [incsFun, List.foldl_cons, incStep_id] using
      (ih (incStep p b)).trans (incStep_id p b)

theorem incStep_decStep_comm (it it' : ProcessedItem) (b : Book) :
    incStep it (decStep it' b) = decStep it' (incStep it b) := by
  cases b
  simp only [incStep, decStep]
  split <;> split <;> simp_all
  omega

theorem incStep_decsFun_comm (it : ProcessedItem) (ps : List ProcessedItem)
    (b : Book) : incStep it (decsFun ps b) = decsFun ps (incStep it b) := by
  induction ps generalizing b with
  | nil => rfl
  | cons q ps ih =>
    show incStep it (decsFun ps (decStep q b)) = decsFun ps (decStep q (incStep it b))
    rw [ih (decStep q b), incStep_decStep_comm]

theorem incStep_decStep_cancel (it : ProcessedItem) (b : Book) :
    incStep it (decStep it b) = b := by
  cases b
  simp only [incStep, decStep]
  split <;> simp_all

/-- Rolling back every decrement recorded in `ps` restores any book exactly. -/
theorem incsFun_decsFun_cancel (ps : List ProcessedItem) (b : Book) :
    incsFun ps (decsFun ps b) = b := by
  induction ps generalizing b with
  | nil => rfl
  | cons p ps ih =>
    show incsFun ps (incStep p (decsFun ps (decStep p b))) = b
    rw [incStep_decsFun_comm, incStep_decStep_cancel, ih]

theorem findBook_id (s : Store) (bid : Nat) (b : Book)
    (h : findBook s bid = some b) : b.id = bid := by
  have := List.find?_some h
  simpa using this

theorem findBook_mem (s : Store) (bid : Nat) (b : Book)
    (h : findBook s bid = some b) : b ∈ s.books :=
  List.mem_of_find?_eq_some h

theorem find?_map_of_id (l : List Book) (g : Book → Book)
    (hg : ∀ b, (g b).id = b.id) (bid : Nat) :
    (l.map g).find? (fun b => b.id == bid) =
      (l.find? (fun b => b.id == bid)).map g := by
  induction l with
  | nil => rfl
  | cons h t ih =>
    by_cases hh : h.id = bid
    · simp [List.find?_cons, hg, hh]
    · have h1 : ((g h).id == bid) = false := by simp [hg, hh]
      have h2 : (h.id == bid) = false := by simp [hh]
      simp [List.find?_cons, h1, h2, ih]

/-- If the books collection of `s'` is a pointwise, id-preserving image of
that of `s`, lookups transport along the image. -/
theorem findBook_of_books_map (s s' : Store) (g : Book → Book)
    (h : s'.books = s.books.map g) (hg : ∀ b, (g b).id = b.id) (bid : Nat) :
    findBook s' bid = (findBook s bid).map g := by
  unfold findBook
  rw [h, find?_map_of_id _ _ hg]

theorem updateBook_books (s : Store) (bid : Nat) (g : Book → Book) :
    (updateBook s bid g).books =
      s.books.map (fun b => if b.id == bid then g b else b) := rfl

theorem updateBook_users (s : Store) (bid : Nat) (g : Book → Book) :
    (updateBook s bid g).users = s.users := rfl

theorem updateBook_carts (s : Store) (bid : Nat) (g : Book → Book) :
    (updateBook s bid g).carts = s.carts := rfl

theorem updateBook_orders (s : Store) (bid : Nat) (g : Book → Book) :
    (updateBook s bid g).orders = s.orders := rfl

theorem updateBook_nextOrderId (s : Store) (bid : Nat) (g : Book → Book) :
    (updateBook s bid g).nextOrderId = s.nextOrderId := rfl

end BasicLemmas

section ValidateLemmas

/-- When every cart line's book resolves, the validation pass returns exactly
the shortage records of the under-stocked lines (in cart order) and the sum
`Σ price × quantity` over the current book snapshots. -/
theorem validatePass_eq (s : Store) (lines : List CartLine)
    (hb : ∀ l ∈ lines, ∃ b, findBook s l.book = some b) :
    validatePass s (lines.map fun l => (l, findBook s l.book)) =
      .ok (lines.filterMap (fun l =>
             match findBook s l.book with
             | some b =>
               if b.stock < (l.quantity : Int) then
                 some ⟨b.id, b.title, b.stock, l.quantity⟩
               else none
             | none => none),
           (lines.map (fun l =>
             (match findBook s l.book with
              | some b => b.price
              | none => 0) * l.quantity)).sum) := by
  induction lines with
  | nil => rfl
  | cons l rest ih =>
    obtain ⟨b, hfind⟩ := hb l (by simp)
    have hid : b.id = l.book := findBook_id s l.book b hfind
    have hfind' : findBook s b.id = some b := by rw [hid]; exact hfind
    have ihr := ih (fun l' hl' => hb l' (by simp [hl']))
    simp only [List.map_cons, validatePass, hfind, hfind', ihr, List.filterMap_cons,
      List.map_cons, List.sum_cons]
    by_cases hlt : b.stock < (l.quantity : Int)
    · simp [hlt, hfind]
    · simp [hlt, hfind]

end ValidateLemmas

section UpdateLemmas

theorem findBook_updateBook (s : Store) (bid bid' : Nat) (g : Book → Book)
    (hg : ∀ b, (g b).id = b.id) :
    findBook (updateBook s bid g) bid' =
      (findBook s bid').map (fun b => if b.id == bid then g b else b) := by
  refine findBook_of_books_map s (updateBook s bid g) _ (updateBook_books s bid g) ?_ bid'
  intro b
  dsimp only
  split
  · exact hg b
  · rfl

theorem findBook_updateBook_other (s : Store) (bid bid' : Nat) (g : Book → Book)
    (hg : ∀ b, (g b).id = b.id) (hne : bid' ≠ bid) :
    findBook (updateBook s bid g) bid' = findBook s bid' := by
  rw [findBook_updateBook s bid bid' g hg]
  cases hfb : findBook s bid' with
  | none => rfl
  | some b =>
    have hb := findBook_id s bid' b hfb
    simp [hb, hne]

theorem findBook_updateBook_self (s : Store) (bid : Nat) (g : Book → Book)
    (hg : ∀ b, (g b).id = b.id) (b : Book) (hfb : findBook s bid = some b) :
    findBook (updateBook s bid g) bid = some (g b) := by
  rw [findBook_updateBook s bid bid g hg, hfb]
  have hb := findBook_id s bid b hfb
  simp [hb]

theorem condDecrementStock_hit (s : Store) (b : Book) (qty : Nat)
    (hfb : findBook s b.id = some b) (hq : (qty : Int) ≤ b.stock) :
    condDecrementStock s b.id qty =
      (some { b with stock := b.stock - qty },
       updateBook s b.id (fun x => { x with stock := x.stock - qty })) := by
  simp [condDecrementStock, hfb, hq]

end UpdateLemmas

section CommitLemmas

/-- Success run of the commit loop: with no injected decrement fault, every
line's book present with sufficient stock, and pairwise-distinct books in
the cart, every conditional decrement hits and the loop returns no error;
the final books are the initial ones with each line's stock decremented. -/
theorem commitLoop_ok (f : Faults) (s : Store) (lines : List CartLine)
    (i : Nat) (acc : List ProcessedItem)
    (hdec : ∀ j, f.decFail j = false)
    (hb : ∀ l ∈ lines, ∃ b, findBook s l.book = some b ∧ (l.quantity : Int) ≤ b.stock)
    (hnodup : (lines.map CartLine.book).Nodup) :
    ∃ s' processed,
      commitLoop f (lines.map fun l => (l, findBook s l.book)) i s acc =
        (s', acc ++ processed, none) ∧
      s'.books = s.books.map (decsFun processed) ∧
      s'.users = s.users ∧ s'.carts = s.carts ∧ s'.orders = s.orders ∧
      s'.nextOrderId = s.nextOrderId ∧
      (∀ bid, bid ∉ lines.map CartLine.book → findBook s' bid = findBook s bid) ∧
      (∀ l ∈ lines, ∀ b, findBook s l.book = some b →
        findBook s' l.book = some { b with stock := b.stock - l.quantity }) := by
  induction lines generalizing s i acc with
  | nil =>
    refine ⟨s, [], ?_, ?_, rfl, rfl, rfl, rfl, fun bid _ => rfl,
            fun l hl => absurd hl (List.not_mem_nil l)⟩
    · simp [commitLoop]
    · show s.books = s.books.map (fun b => b)
      exact (List.map_id' s.books).symm
  | cons l rest ih =>
    obtain ⟨b, hfind, hq⟩ := hb l (by simp)
    have hid : b.id = l.book := findBook_id s l.book b hfind
    have hfind' : findBook s b.id = some b := by rw [hid]; exact hfind
    have hgid : ∀ x : Book,
        ((fun x : Book => { x with stock := x.stock - (l.quantity : Int) }) x).id = x.id :=
      fun _ => rfl
    have hheadnotin : l.book ∉ rest.map CartLine.book := by
      simpa using (List.nodup_cons.mp hnodup).1
    have hrestnodup : (rest.map CartLine.book).Nodup := (List.nodup_cons.mp hnodup).2
    -- the store after the head decrement
    set s₁ := updateBook s b.id (fun x => { x with stock := x.stock - (l.quantity : Int) })
      with hs₁
    have hlookup_pres : ∀ bid, bid ≠ l.book → findBook s₁ bid = findBook s bid := by
      intro bid hne
      exact findBook_updateBook_other s b.id bid _ hgid (by rw [hid]; exact hne)
    have hrest_eq : (rest.map fun l' => (l', findBook s l'.book)) =
        (rest.map fun l' => (l', findBook s₁ l'.book)) := by
      refine List.map_congr_left ?_
      intro l' hl'
      have : l'.book ≠ l.book := by
        intro hcontra
        exact hheadnotin (hcontra ▸ List.mem_map_of_mem CartLine.book hl')
      rw [hlookup_pres l'.book this]
    have hb₁ : ∀ l' ∈ rest, ∃ b', findBook s₁ l'.book = some b' ∧
        (l'.quantity : Int) ≤ b'.stock := by
      intro l' hl'
      obtain ⟨b', hb', hq'⟩ := hb l' (by simp [hl'])
      have : l'.book ≠ l.book := by
        intro hcontra
        exact hheadnotin (hcontra ▸ List.mem_map_of_mem CartLine.book hl')
      exact ⟨b', by rw [hlookup_pres l'.book this]; exact hb', hq'⟩
    obtain ⟨s', pre, hrun, hbooks, husers, hcarts, horders, hnext, hother, hdecd⟩ :=
      ih s₁ (i + 1)
        (acc ++ [{ bookId := b.id, quantity := l.quantity,
                   book := { b with stock := b.stock - (l.quantity : Int) } }])
        hb₁ hrestnodup
    refine ⟨s', { bookId := b.id, quantity := l.quantity,
                  book := { b with stock := b.stock - (l.quantity : Int) } } :: pre,
            ?_, ?_, ?_, ?_, ?_, ?_, ?_, ?_⟩
    · -- the run equation
      simp only [List.map_cons, commitLoop, hfind, hdec i, Bool.false_eq_true, if_false]
      rw [condDecrementStock_hit s b l.quantity hfind' hq]
      dsimp only
      rw [hrest_eq]
      exact hrun.trans (by simp)
    · -- books characterisation
      rw [hbooks]
      have hstep : s₁.books = s.books.map
          (decStep { bookId := b.id, quantity := l.quantity,
                     book := { b with stock := b.stock - (l.quantity : Int) } }) := by
        rw [hs₁, updateBook_books]
        refine List.map_congr_left ?_
        intro x _
        rfl
      rw [hstep, List.map_map]
      rfl
    · rw [husers]; rfl
    · rw [hcarts]; rfl
    · rw [horders]; rfl
    · rw [hnext]; rfl
    · intro bid hbid
      simp only [List.map_cons, List.mem_cons, not_or] at hbid
      rw [hother bid hbid.2, hlookup_pres bid hbid.1]
    · intro l'' hl'' b'' hb''
      rcases List.mem_cons.mp hl'' with hhead | htail
      · subst hhead
        have hbb : b'' = b := by rw [hfind] at hb''; exact (Option.some.inj hb'').symm
        subst hbb
        have hself : findBook s₁ l''.book =
            some { b'' with stock := b''.stock - (l''.quantity : Int) } := by
          rw [← hid]
          exact findBook_updateBook_self s b''.id _ hgid b'' hfind'
        rw [hother l''.book hheadnotin, hself]
      · have hne : l''.book ≠ l.book := by
          intro hcontra
          exact hheadnotin (hcontra ▸ List.mem_map_of_mem CartLine.book htail)
        have : findBook s₁ l''.book = some b'' := by rw [hlookup_pres l''.book hne]; exact hb''
        exact hdecd l'' htail b'' this

/-- Failing run of the commit loop: if some in-range decrement has an
injected fault (the modelled loss of the commit-time race), the loop stops
with a `raceStock` error, and the store reflects exactly the decrements of
the succeeded prefix, recorded in `processed`. -/
theorem commitLoop_fail (f : Faults) (s : Store) (lines : List CartLine)
    (i : Nat) (acc : List ProcessedItem)
    (hb : ∀ l ∈ lines, ∃ b, findBook s l.book = some b ∧ (l.quantity : Int) ≤ b.stock)
    (hnodup : (lines.map CartLine.book).Nodup)
    (hfault : ∃ j, j < lines.length ∧ f.decFail (i + j) = true) :
    ∃ s' processed title,
      commitLoop f (lines.map fun l => (l, findBook s l.book)) i s acc =
        (s', acc ++ processed, some (CheckoutErr.raceStock title)) ∧
      s'.books = s.books.map (decsFun processed) ∧
      s'.users = s.users ∧ s'.carts = s.carts ∧ s'.orders = s.orders ∧
      s'.nextOrderId = s.nextOrderId := by
  induction lines generalizing s i acc with
  | nil =>
    obtain ⟨j, hj, _⟩ := hfault
    exact absurd hj (by simp)
  | cons l rest ih =>
    obtain ⟨b, hfind, hq⟩ := hb l (by simp)
    have hid : b.id = l.book := findBook_id s l.book b hfind
    have hfind' : findBook s b.id = some b := by rw [hid]; exact hfind
    by_cases hdi : f.decFail i = true
    · refine ⟨s, [], b.title, ?_, ?_, rfl, rfl, rfl, rfl⟩
      · simp [commitLoop, hfind, hdi]
      · show s.books = s.books.map (fun x => x)
        exact (List.map_id' s.books).symm
    · have hdi' : f.decFail i = false := by simpa using hdi
      have hgid : ∀ x : Book,
          ((fun x : Book => { x with stock := x.stock - (l.quantity : Int) }) x).id = x.id :=
        fun _ => rfl
      have hheadnotin : l.book ∉ rest.map CartLine.book := by
        simpa using (List.nodup_cons.mp hnodup).1
      have hrestnodup : (rest.map CartLine.book).Nodup := (List.nodup_cons.mp hnodup).2
      set s₁ := updateBook s b.id (fun x => { x with stock := x.stock - (l.quantity : Int) })
        with hs₁
      have hlookup_pres : ∀ bid, bid ≠ l.book → findBook s₁ bid = findBook s bid := by
        intro bid hne
        exact findBook_updateBook_other s b.id bid _ hgid (by rw [hid]; exact hne)
      have hrest_eq : (rest.map fun l' => (l', findBook s l'.book)) =
          (rest.map fun l' => (l', findBook s₁ l'.book)) := by
        refine List.map_congr_left ?_
        intro l' hl'
        have : l'.book ≠ l.book := by
          intro hcontra
          exact hheadnotin (hcontra ▸ List.mem_map_of_mem CartLine.book hl')
        rw [hlookup_pres l'.book this]
      have hb₁ : ∀ l' ∈ rest, ∃ b', findBook s₁ l'.book = some b' ∧
          (l'.quantity : Int) ≤ b'.stock := by
        intro l' hl'
        obtain ⟨b', hb', hq'⟩ := hb l' (by simp [hl'])
        have : l'.book ≠ l.book := by
          intro hcontra
          exact hheadnotin (hcontra ▸ List.mem_map_of_mem CartLine.book hl')
        exact ⟨b', by rw [hlookup_pres l'.book this]; exact hb', hq'⟩
      have hfault₁ : ∃ j, j < rest.length ∧ f.decFail ((i + 1) + j) = true := by
        obtain ⟨j, hj, hjf⟩ := hfault
        match j with
        | 0 => exact absurd hjf (by simpa using hdi)
        | j' + 1 =>
          refine ⟨j', by simpa using hj, ?_⟩
          have : i + 1 + j' = i + (j' + 1) := by omega
          rw [this]
          exact hjf
      obtain ⟨s', pre, title, hrun, hbooks, husers, hcarts, horders, hnext⟩ :=
        ih s₁ (i + 1)
          (acc ++ [{ bookId := b.id, quantity := l.quantity,
                     book := { b with stock := b.stock - (l.quantity : Int) } }])
          hb₁ hrestnodup hfault₁
      refine ⟨s', { bookId := b.id, quantity := l.quantity,
                    book := { b with stock := b.stock - (l.quantity : Int) } } :: pre,
              title, ?_, ?_, ?_, ?_, ?_, ?_⟩
      · simp only [List.map_cons, commitLoop, hfind, hdi', Bool.false_eq_true, if_false]
        rw [condDecrementStock_hit s b l.quantity hfind' hq]
        dsimp only
        rw [hrest_eq]
        exact hrun.trans (by simp)
      · rw [hbooks]
        have hstep : s₁.books = s.books.map
            (decStep { bookId := b.id, quantity := l.quantity,
                       book := { b with stock := b.stock - (l.quantity : Int) } }) := by
          rw [hs₁, updateBook_books]
          refine List.map_congr_left ?_
          intro x _
          rfl
        rw [hstep, List.map_map]
        rfl
      · rw [husers]; rfl
      · rw [hcarts]; rfl
      · rw [horders]; rfl
      · rw [hnext]; rfl

end CommitLemmas

section CompensateLemmas

/-- When no compensation fault is injected, the rollback loop applies every
recorded increment and reports no abort. -/
theorem compensateLoop_ok (f : Faults) (ps : List ProcessedItem) (j : Nat) (s : Store)
    (hcomp : ∀ k, f.compFail k = false) :
    ∃ s'', compensateLoop f ps j s = (s'', none) ∧
      s''.books = s.books.map (incsFun ps) ∧
      s''.users = s.users ∧ s''.carts = s.carts ∧ s''.orders = s.orders ∧
      s''.nextOrderId = s.nextOrderId := by
  induction ps generalizing j s with
  | nil =>
    refine ⟨s, by simp [compensateLoop], ?_, rfl, rfl, rfl, rfl⟩
    show s.books = s.books.map (fun x => x)
    exact (List.map_id' s.books).symm
  | cons p ps ih =>
    obtain ⟨s'', hrun, hbooks, husers, hcarts, horders, hnext⟩ :=
      ih (j + 1) (incrementStock s p.bookId p.quantity)
    refine ⟨s'', ?_, ?_, ?_, ?_, ?_, ?_⟩
    · simp only [compensateLoop, hcomp j, Bool.false_eq_true, if_false]
      exact hrun
    · rw [hbooks]
      have hstep : (incrementStock s p.bookId p.quantity).books =
          s.books.map (incStep p) := by
        rw [incrementStock, updateBook_books]
        refine List.map_congr_left ?_
        intro x _
        rfl
      rw [hstep, List.map_map]
      rfl
    · rw [husers]; rfl
    · rw [hcarts]; rfl
    · rw [horders]; rfl
    · rw [hnext]; rfl

/-- When the very first compensating increment rejects, the rollback loop
stops immediately: nothing is incremented and the abort carries that item's
book id. -/
theorem compensateLoop_abort_head (f : Faults) (p : ProcessedItem)
    (ps : List ProcessedItem) (j : Nat) (s : Store) (hcomp : f.compFail j = true) :
    compensateLoop f (p :: ps) j s = (s, some p.bookId) := by
  simp [compensateLoop, hcomp]

/-- First decrement every book recorded in `ps`, then increment them all
back: the books collection is exactly restored. -/
theorem books_roundtrip (ps : List ProcessedItem) (l : List Book) :
    (l.map (decsFun ps)).map (incsFun ps) = l := by
  rw [List.map_map]
  have h : ∀ b ∈ l, (incsFun ps ∘ decsFun ps) b = id b := by
    intro b _
    exact incsFun_decsFun_cancel ps b
  rw [List.map_congr_left h, List.map_id]

theorem store_eq (a b : Store) (h1 : a.books = b.books) (h2 : a.users = b.users)
    (h3 : a.carts = b.carts) (h4 : a.orders = b.orders)
    (h5 : a.nextOrderId = b.nextOrderId) : a = b := by
  cases a; cases b; simp_all

end CompensateLemmas

section UserCartLemmas

theorem findUser_id (s : Store) (uid : Nat) (u : UserAcct)
    (h : findUser s uid = some u) : u.id = uid := by
  have := List.find?_some h
  simpa using this

theorem find?_userMap_of_id (l : List UserAcct) (g : UserAcct → UserAcct)
    (hg : ∀ u, (g u).id = u.id) (uid : Nat) :
    (l.map g).find? (fun u => u.id == uid) =
      (l.find? (fun u => u.id == uid)).map g := by
  induction l with
  | nil => rfl
  | cons h t ih =>
    by_cases hh : h.id = uid
    · simp [List.find?_cons, hg, hh]
    · have h1 : ((g h).id == uid) = false := by simp [hg, hh]
      have h2 : (h.id == uid) = false := by simp [hh]
      simp [List.find?_cons, h1, h2, ih]

/-- Debiting an account rewrites exactly that user's balance, from the
point of view of `findUser`. -/
theorem findUser_debitBalance_self (s : Store) (uid : Nat) (amt : Nat)
    (u : UserAcct) (h : findUser s uid = some u) :
    findUser (debitBalance s uid amt) uid =
      some { u with balance := u.balance - amt } := by
  have hgid : ∀ x : UserAcct,
      ((fun x : UserAcct =>
        if x.id == uid then { x with balance := x.balance - (amt : Int) } else x) x).id
        = x.id := by
    intro x
    dsimp only
    split <;> rfl
  have hmap : (debitBalance s uid amt).users = s.users.map
      (fun x => if x.id == uid then { x with balance := x.balance - (amt : Int) } else x) := rfl
  show (debitBalance s uid amt).users.find? (fun x => x.id == uid) = _
  rw [hmap, find?_userMap_of_id _ _ hgid]
  have hu := findUser_id s uid u h
  show (findUser s uid).map _ = _
  rw [h]
  simp [hu]

/-- Clearing the cart leaves no line for the cleared user. -/
theorem filter_user_clear (l : List CartLine) (uid : Nat) :
    (l.filter (fun c => !(c.user == uid))).filter (fun c => c.user == uid) = [] := by
  rw [List.filter_filter]
  refine List.filter_eq_nil_iff.mpr ?_
  intro c _
  cases h : c.user == uid <;> simp [h]

end UserCartLemmas

section PhaseLemmas

/-- The `catch` block always re-throws: its HTTP outcome is a 500-class
`thrown` result, whatever compensation does. -/
theorem catchBlock_fst (f : Faults) (ps : List ProcessedItem) (e : CheckoutErr)
    (s : Store) : ∃ e', (catchBlock f ps e s).1 = .thrown e' := by
  cases h : compensateLoop f ps 0 s with
  | mk s' ab =>
    cases ab <;> simp [catchBlock, h]

/-- The commit phase ends either in a 201 `created` or in a 500 `thrown`
outcome — never in a validation-style failure. -/
theorem commitPhase_fst (uid : Nat) (f : Faults) (items : List (CartLine × Option Book))
    (total : Nat) (s : Store) :
    (∃ o, (commitPhase uid f items total s).1 = .created o) ∨
    (∃ e, (commitPhase uid f items total s).1 = .thrown e) := by
  unfold commitPhase
  cases hcl : commitLoop f items 0 s [] with
  | mk s₁ pe =>
    obtain ⟨processed, e?⟩ := pe
    cases e? with
    | some e =>
      right
      simpa using catchBlock_fst f processed e s₁
    | none =>
      cases hd : f.debitFail with
      | true =>
        right
        simpa using catchBlock_fst f processed .debitErr s₁
      | false =>
        cases hc : f.createFail with
        | true =>
          right
          simpa using catchBlock_fst f processed .createErr (debitBalance s₁ uid total)
        | false =>
          cases hx : f.clearFail with
          | true =>
            right
            simpa using catchBlock_fst f processed .clearErr
              { debitBalance s₁ uid total with
                  orders := (debitBalance s₁ uid total).orders ++
                    [{ id := (debitBalance s₁ uid total).nextOrderId, user := uid,
                       items := processed.map
                         (fun it => OrderItem.mk it.bookId it.quantity it.book.price),
                       totalPrice := total, status := "pending" }],
                  nextOrderId := (debitBalance s₁ uid total).nextOrderId + 1 }
          | false =>
            left
            exact ⟨_, rfl⟩

/-- Reduction of `createOrder` past the empty-cart, account and validation
steps, when the cart is non-empty, the account exists and every book
resolves. -/
theorem createOrder_validation_eq (s : Store) (uid : Nat) (f : Faults) (user : UserAcct)
    (hne : cartFindByUser s uid ≠ [])
    (huser : findUser s uid = some user)
    (hbooks : ∀ l ∈ cartFindByUser s uid, ∃ b, findBook s l.book = some b) :
    createOrder s uid f =
      if (shortageRecords s uid).length > 0
      then (.insufficientStock (shortageRecords s uid), s)
      else if (cartTotal s uid : Int) > user.balance
      then (.insufficientBalance (cartTotal s uid) user.balance, s)
      else commitPhase uid f ((cartFindByUser s uid).map fun l => (l, findBook s l.book))
             (cartTotal s uid) s := by
  have hval := validatePass_eq s (cartFindByUser s uid) hbooks
  have hlen : ¬ ((cartFindByUser s uid).map fun l => (l, findBook s l.book)).length = 0 := by
    simpa [List.length_eq_zero] using hne
  simp only [createOrder, if_neg hlen, huser, hval, shortageRecords, cartTotal]

end PhaseLemmas

section PaginationLemmas

/-- `Math.ceil` of the rational quotient of naturals, as natural ceiling
division. -/
theorem ceil_div_toNat (n k : Nat) (hk : 1 ≤ k) :
    (Int.ceil ((n : ℚ) / (k : ℚ))).toNat = (n + k - 1) / k := by
  have hk0 : (0 : ℚ) < (k : ℚ) := by exact_mod_cast hk
  rcases Nat.eq_zero_or_pos n with hn | hn
  · subst hn
    simp [Nat.div_eq_of_lt (show k - 1 < k by omega)]
  · have hm : n + k - 1 = (n - 1) + k := by omega
    rw [hm, Nat.add_div_right _ (show 0 < k by omega)]
    have h0 := (Nat.div_lt_iff_lt_mul (show 0 < k by omega)).mp
      (show (n - 1) / k < (n - 1) / k + 1 by omega)
    have hub : n ≤ ((n - 1) / k + 1) * k := by omega
    have hlb : ((n - 1) / k) * k < n :=
      lt_of_le_of_lt (Nat.div_mul_le_self (n - 1) k) (by omega)
    have hceil : Int.ceil ((n : ℚ) / (k : ℚ)) = (((n - 1) / k + 1 : ℕ) : ℤ) := by
      rw [Int.ceil_eq_iff]
      refine ⟨?_, ?_⟩
      · have hcast : ((((n - 1) / k + 1 : ℕ) : ℤ) : ℚ) - 1 = (((n - 1) / k : ℕ) : ℚ) := by
          rw [Int.cast_natCast]
          push_cast
          ring
        rw [hcast, lt_div_iff hk0]
        exact_mod_cast hlb
      · rw [div_le_iff hk0]
        exact_mod_cast hub
    rw [hceil]
    exact Int.toNat_natCast _

end PaginationLemmas

section InvariantLemmas

theorem mem_id_unique (l : List Book) (hids : (l.map Book.id).Nodup)
    (x y : Book) (hx : x ∈ l) (hy : y ∈ l) (hxy : x.id = y.id) : x = y :=
  List.inj_on_of_nodup_map hids hx hy hxy

theorem ids_updateBook (s : Store) (bid : Nat) (g : Book → Book)
    (hg : ∀ b, (g b).id = b.id) :
    (updateBook s bid g).books.map Book.id = s.books.map Book.id := by
  rw [updateBook_books, List.map_map]
  refine List.map_congr_left ?_
  intro b _
  show (if b.id == bid then g b else b).id = b.id
  split
  · exact hg b
  · rfl

theorem ids_condDecrementStock (s : Store) (bid qty : Nat) :
    (condDecrementStock s bid qty).2.books.map Book.id = s.books.map Book.id := by
  cases hfb : findBook s bid with
  | none => simp [condDecrementStock, hfb]
  | some b =>
    by_cases hq : (qty : Int) ≤ b.stock
    · simp only [condDecrementStock, hfb, if_pos hq]
      exact ids_updateBook s bid _ (fun _ => rfl)
    · simp [condDecrementStock, hfb, if_neg hq]

/-- The conditional decrement can never push a stock negative: the guard
checks sufficiency at the moment of the write. -/
theorem stocks_nonneg_condDec (s : Store) (bid qty : Nat)
    (hids : (s.books.map Book.id).Nodup)
    (hinv : ∀ b ∈ s.books, 0 ≤ b.stock) :
    ∀ b' ∈ (condDecrementStock s bid qty).2.books, 0 ≤ b'.stock := by
  cases hfb : findBook s bid with
  | none =>
    intro b' hb'
    simp only [condDecrementStock, hfb] at hb'
    exact hinv b' hb'
  | some b =>
    by_cases hq : (qty : Int) ≤ b.stock
    · intro b' hb'
      simp only [condDecrementStock, hfb, if_pos hq, updateBook_books] at hb'
      obtain ⟨x, hx, hxe⟩ := List.mem_map.mp hb'
      by_cases hxid : x.id = bid
      · have hbmem := findBook_mem s bid b hfb
        have hbid := findBook_id s bid b hfb
        have hxb : x = b := mem_id_unique s.books hids x b hx hbmem (by rw [hxid, hbid])
        subst hxb
        rw [← hxe]
        have hbeq : (x.id == bid) = true := by simp [hxid]
        simp only [hbeq, if_true]
        show 0 ≤ x.stock - (qty : Int)
        omega
      · rw [← hxe]
        have hbeq : (x.id == bid) = false := by simp [hxid]
        simp only [hbeq, Bool.false_eq_true, if_false]
        exact hinv x hx
    · intro b' hb'
      simp only [condDecrementStock, hfb, if_neg hq] at hb'
      exact hinv b' hb'

/-- A compensating increment keeps stocks non-negative. -/
theorem stocks_nonneg_inc (s : Store) (bid qty : Nat)
    (hinv : ∀ b ∈ s.books, 0 ≤ b.stock) :
    ∀ b' ∈ (incrementStock s bid qty).books, 0 ≤ b'.stock := by
  intro b' hb'
  rw [incrementStock, updateBook_books] at hb'
  obtain ⟨x, hx, hxe⟩ := List.mem_map.mp hb'
  rw [← hxe]
  have hx0 := hinv x hx
  cases hbeq : (x.id == bid) with
  | true =>
    simp only [hbeq, if_true]
    show 0 ≤ x.stock + (qty : Int)
    omega
  | false =>
    simp only [hbeq, Bool.false_eq_true, if_false]
    exact hx0

theorem stocks_nonneg_commitLoop (f : Faults) (items : List (CartLine × Option Book)) :
    ∀ (i : Nat) (s : Store) (acc : List ProcessedItem),
      (s.books.map Book.id).Nodup → (∀ b ∈ s.books, 0 ≤ b.stock) →
      (((commitLoop f items i s acc).1.books.map Book.id).Nodup ∧
        ∀ b ∈ (commitLoop f items i s acc).1.books, 0 ≤ b.stock) := by
  induction items with
  | nil =>
    intro i s acc hids hinv
    exact ⟨hids, hinv⟩
  | cons it rest ih =>
    intro i s acc hids hinv
    obtain ⟨line, ob⟩ := it
    cases ob with
    | none => exact ⟨hids, hinv⟩
    | some book =>
      simp only [commitLoop]
      cases hd : f.decFail i with
      | true => exact ⟨hids, hinv⟩
      | false =>
        cases hcd : condDecrementStock s book.id line.quantity with
        | mk o s₁ =>
          have hids₁ : (s₁.books.map Book.id).Nodup := by
            have h := ids_condDecrementStock s book.id line.quantity
            rw [hcd] at h
            rw [show s₁.books = (o, s₁).2.books from rfl, h]
            exact hids
          have hinv₁ : ∀ b ∈ s₁.books, 0 ≤ b.stock := by
            have h := stocks_nonneg_condDec s book.id line.quantity hids hinv
            rw [hcd] at h
            exact h
          cases o with
          | none => exact ⟨hids₁, hinv₁⟩
          | some updated =>
            exact ih (i + 1) s₁
              (acc ++ [{ bookId := book.id, quantity := line.quantity, book := updated }])
              hids₁ hinv₁

theorem stocks_nonneg_compensateLoop (f : Faults) (ps : List ProcessedItem) :
    ∀ (j : Nat) (s : Store), (∀ b ∈ s.books, 0 ≤ b.stock) →
      ∀ b ∈ (compensateLoop f ps j s).1.books, 0 ≤ b.stock := by
  induction ps with
  | nil =>
    intro j s hinv
    exact hinv
  | cons p rest ih =>
    intro j s hinv
    simp only [compensateLoop]
    cases hc : f.compFail j with
    | true => exact hinv
    | false =>
      exact ih (j + 1) (incrementStock s p.bookId p.quantity)
        (stocks_nonneg_inc s p.bookId p.quantity hinv)

theorem stocks_nonneg_catchBlock (f : Faults) (ps : List ProcessedItem)
    (e : CheckoutErr) (s : Store) (hinv : ∀ b ∈ s.books, 0 ≤ b.stock) :
    ∀ b ∈ (catchBlock f ps e s).2.books, 0 ≤ b.stock := by
  unfold catchBlock
  cases hcb : compensateLoop f ps 0 s with
  | mk s' ab =>
    have h := stocks_nonneg_compensateLoop f ps 0 s hinv
    rw [hcb] at h
    cases ab <;> exact h

theorem stocks_nonneg_commitPhase (uid : Nat) (f : Faults)
    (items : List (CartLine × Option Book)) (total : Nat) (s : Store)
    (hids : (s.books.map Book.id).Nodup)
    (hinv : ∀ b ∈ s.books, 0 ≤ b.stock) :
    ∀ b ∈ (commitPhase uid f items total s).2.books, 0 ≤ b.stock := by
  unfold commitPhase
  cases hcl : commitLoop f items 0 s [] with
  | mk s₁ pe =>
    have h := stocks_nonneg_commitLoop f items 0 s [] hids hinv
    rw [hcl] at h
    obtain ⟨_, hinv₁⟩ := h
    obtain ⟨processed, e?⟩ := pe
    cases e? with
    | some e => exact stocks_nonneg_catchBlock f processed e s₁ hinv₁
    | none =>
      cases hd : f.debitFail with
      | true => exact stocks_nonneg_catchBlock f processed .debitErr s₁ hinv₁
      | false =>
        cases hc : f.createFail with
        | true => exact stocks_nonneg_catchBlock f processed .createErr _ hinv₁
        | false =>
          cases hx : f.clearFail with
          | true => exact stocks_nonneg_catchBlock f processed .clearErr _ hinv₁
          | false => exact hinv₁

theorem stocks_nonneg_createOrder (s : Store) (uid : Nat) (f : Faults)
    (hids : (s.books.map Book.id).Nodup)
    (hinv : ∀ b ∈ s.books, 0 ≤ b.stock) :
    ∀ b ∈ (createOrder s uid f).2.books, 0 ≤ b.stock := by
  simp only [createOrder]
  split
  · exact hinv
  · split
    · exact hinv
    · split
      · exact hinv
      · split
        · exact hinv
        · split
          · exact hinv
          · exact stocks_nonneg_commitPhase uid f _ _ s hids hinv

end InvariantLemmas

/-! ## The claims -/

/-- Claim C10: for every caller and every store state, `getOrderById` on the
literal path parameter `"all"` answers with the 400 invalid-route response;
the reserved id is never looked up in the order store (the result is the
same whatever the store holds), so it can never be reported `NotFound`,
`Forbidden`, or found. -/
theorem getOrderById_all_reserved (s : Store) (callerId : Nat) :
    getOrderById s callerId "all" = .invalidRoute := rfl

/-- Claim C8: `updateOrderStatus` rejects a status outside the five-valued
enum with `InvalidStatus` leaving the store untouched; with a valid status
it fails 404 when the order is missing (store untouched), and otherwise
overwrites exactly the status field of the targeted order — every other
field of that order, every other order and every other collection are
unchanged — with no restriction on the order's current status. -/
theorem updateOrderStatus_spec (s : Store) (oid : Nat) (status : String) :
    (status ∉ validStatuses →
      updateOrderStatus s oid status = (.invalidStatus validStatuses, s)) ∧
    (status ∈ validStatuses → findOrder s oid = none →
      updateOrderStatus s oid status = (.orderMissing, s)) ∧
    (∀ o, status ∈ validStatuses → findOrder s oid = some o →
      (updateOrderStatus s oid status).1 = .updated { o with status := status } ∧
      (updateOrderStatus s oid status).2.books = s.books ∧
      (updateOrderStatus s oid status).2.users = s.users ∧
      (updateOrderStatus s oid status).2.carts = s.carts ∧
      (updateOrderStatus s oid status).2.nextOrderId = s.nextOrderId ∧
      (updateOrderStatus s oid status).2.orders =
        s.orders.map (fun x => if x.id == oid then { x with status := status } else x)) := by
  refine ⟨?_, ?_, ?_⟩
  · intro hbad
    have hc : validStatuses.contains status = false := by simpa using hbad
    simp only [updateOrderStatus, hc, Bool.not_false, if_true]
  · intro hval hmiss
    have hc : validStatuses.contains status = true := by simpa using hval
    simp only [updateOrderStatus, hc, Bool.not_true, Bool.false_eq_true, if_false, hmiss]
  · intro o hval hfound
    have hc : validStatuses.contains status = true := by simpa using hval
    refine ⟨?_, ?_, ?_, ?_, ?_, ?_⟩ <;>
      simp only [updateOrderStatus, hc, Bool.not_true, Bool.false_eq_true, if_false, hfound]

/-- Closed witness for the three branches of `updateOrderStatus_spec` on the
concrete store. -/
theorem updateOrderStatus_spec_witness :
    (updateOrderStatus wStore 50 "weird" = (.invalidStatus validStatuses, wStore)) ∧
    (updateOrderStatus wStore 51 "shipped" = (.orderMissing, wStore)) ∧
    ((updateOrderStatus wStore 50 "shipped").1 =
      .updated { id := 50, user := 100, items := [], totalPrice := 10,
                 status := "shipped" }) :=
  ⟨(updateOrderStatus_spec wStore 50 "weird").1 (by decide),
   (updateOrderStatus_spec wStore 51 "shipped").2.1 (by decide) (by decide),
   ((updateOrderStatus_spec wStore 50 "shipped").2.2
      ⟨50, 100, [], 10, "pending"⟩ (by decide) (by decide)).1⟩

/-- Claim C9: for every store, status filter, `page ≥ 1` and `pageSize ≥ 1`,
the pagination block of `getAllOrders` has `currentPage = page`,
`totalPages = ⌈totalOrders / pageSize⌉` (natural ceiling division),
`totalOrders` the number of matching orders, `hasNext = page×pageSize <
totalOrders`, `hasPrev = page > 1`, and the returned page is the
newest-first matching orders with `skip = (page−1)×pageSize` elements
dropped and `limit = pageSize` elements taken. -/
theorem getAllOrders_pagination_math (s : Store) (status? : Option String)
    (page limit : Nat) (hp : 1 ≤ page) (hl : 1 ≤ limit) :
    (getAllOrders s status? page limit).2 =
      { currentPage := page,
        totalPages :=
          ((s.orders.filter (matchesStatus status?)).length + limit - 1) / limit,
        totalOrders := (s.orders.filter (matchesStatus status?)).length,
        hasNext := decide (page * limit < (s.orders.filter (matchesStatus status?)).length),
        hasPrev := decide (1 < page) } ∧
    (getAllOrders s status? page limit).1 =
      (((s.orders.filter (matchesStatus status?)).reverse).drop ((page - 1) * limit)).take
        limit := by
  constructor
  · show Pagination.mk page
      ((Int.ceil (((s.orders.filter (matchesStatus status?)).length : ℚ) / (limit : ℚ))).toNat)
      (s.orders.filter (matchesStatus status?)).length
      (decide (page * limit < (s.orders.filter (matchesStatus status?)).length))
      (decide (1 < page)) = _
    rw [ceil_div_toNat _ _ hl]
  · rfl

/-- Closed witness: 25 orders, page 2, page size 5 gives `totalPages = 5`,
`hasNext`, `hasPrev`, skip 5 and limit 5. -/
theorem getAllOrders_pagination_math_witness :
    (1 : Nat) ≤ 2 ∧ (1 : Nat) ≤ 5 ∧
    ((getAllOrders w25Store none 2 5).2 =
      { currentPage := 2,
        totalPages := ((w25Store.orders.filter (matchesStatus none)).length + 5 - 1) / 5,
        totalOrders := (w25Store.orders.filter (matchesStatus none)).length,
        hasNext := decide (2 * 5 < (w25Store.orders.filter (matchesStatus none)).length),
        hasPrev := decide (1 < 2) } ∧
     (getAllOrders w25Store none 2 5).1 =
      (((w25Store.orders.filter (matchesStatus none)).reverse).drop ((2 - 1) * 5)).take 5) :=
  ⟨by decide, by decide, getAllOrders_pagination_math w25Store none 2 5 (by decide) (by decide)⟩

/-- Claim C5: on a non-empty cart whose books all resolve, with at least one
under-stocked line, checkout fails with the insufficient-stock response and
an unchanged store, and the failure payload contains the shortage record
`{bookId, title, available, requested}` of every under-stocked line — all
lines are checked before the failure is reported, not just the first. -/
theorem createOrder_aggregates_shortages (s : Store) (uid : Nat) (f : Faults)
    (user : UserAcct)
    (hne : cartFindByUser s uid ≠ [])
    (huser : findUser s uid = some user)
    (hbooks : ∀ l ∈ cartFindByUser s uid, ∃ b, findBook s l.book = some b)
    (hshort : ∃ l ∈ cartFindByUser s uid, ∃ b, findBook s l.book = some b ∧
        b.stock < (l.quantity : Int)) :
    ∃ errs, createOrder s uid f = (.insufficientStock errs, s) ∧
      ∀ l ∈ cartFindByUser s uid, ∀ b, findBook s l.book = some b →
        b.stock < (l.quantity : Int) →
        ({ bookId := b.id, title := b.title, available := b.stock,
           requested := l.quantity } : StockErr) ∈ errs := by
  obtain ⟨l0, hl0, b0, hb0, hlt0⟩ := hshort
  have hred := createOrder_validation_eq s uid f user hne huser hbooks
  have hmem0 : StockErr.mk b0.id b0.title b0.stock l0.quantity ∈ shortageRecords s uid := by
    refine List.mem_filterMap.mpr ⟨l0, hl0, ?_⟩
    simp [hb0, hlt0]
  have hpos : (shortageRecords s uid).length > 0 :=
    List.length_pos.mpr (List.ne_nil_of_mem hmem0)
  rw [hred, if_pos hpos]
  refine ⟨shortageRecords s uid, rfl, ?_⟩
  intro l hl b hb hlt
  refine List.mem_filterMap.mpr ⟨l, hl, ?_⟩
  simp [hb, hlt]

/-- Closed witness: user 400's cart requests 9 copies of a book with stock 5
and checkout reports that shortage without mutating the store. -/
theorem createOrder_aggregates_shortages_witness :
    ∃ errs, createOrder wStore 400 noFaults = (.insufficientStock errs, wStore) ∧
      ∀ l ∈ cartFindByUser wStore 400, ∀ b, findBook wStore l.book = some b →
        b.stock < (l.quantity : Int) →
        ({ bookId := b.id, title := b.title, available := b.stock,
           requested := l.quantity } : StockErr) ∈ errs :=
  createOrder_aggregates_shortages wStore 400 noFaults ⟨400, 50⟩
    (by decide) (by decide)
    (by
      intro l hl
      have hc : cartFindByUser wStore 400 = [⟨400, 1, 9⟩] := by decide
      rw [hc] at hl
      have hle : l = ⟨400, 1, 9⟩ := by simpa using hl
      subst hle
      exact ⟨⟨1, "Dune", 10, 5⟩, by decide⟩)
    ⟨⟨400, 1, 9⟩, by decide, ⟨1, "Dune", 10, 5⟩, by decide, by decide⟩

/-- Claim C6: with a non-empty cart, an existing account, resolving books and
sufficient stock everywhere, a total strictly above the balance makes
checkout fail with `required = totalPrice` and `available = balance` and an
unchanged store; a total less than or equal to the balance (in particular,
exactly equal) passes the balance gate — the result is never the
insufficient-balance response. -/
theorem createOrder_balance_gate (s : Store) (uid : Nat) (f : Faults) (user : UserAcct)
    (hne : cartFindByUser s uid ≠ [])
    (huser : findUser s uid = some user)
    (hbooks : ∀ l ∈ cartFindByUser s uid, ∃ b, findBook s l.book = some b)
    (hstock : ∀ l ∈ cartFindByUser s uid, ∀ b, findBook s l.book = some b →
        (l.quantity : Int) ≤ b.stock) :
    (user.balance < (cartTotal s uid : Int) →
      createOrder s uid f = (.insufficientBalance (cartTotal s uid) user.balance, s)) ∧
    ((cartTotal s uid : Int) ≤ user.balance →
      ∀ required available,
        (createOrder s uid f).1 ≠ .insufficientBalance required available) := by
  have hred := createOrder_validation_eq s uid f user hne huser hbooks
  have herrs : shortageRecords s uid = [] := by
    rw [shortageRecords, List.filterMap_eq_nil]
    intro l hl
    obtain ⟨b, hb⟩ := hbooks l hl
    have hq := hstock l hl b hb
    simp [hb, not_lt.mpr hq]
  have hnotpos : ¬ (shortageRecords s uid).length > 0 := by simp [herrs]
  constructor
  · intro hbal
    rw [hred, if_neg hnotpos, if_pos hbal]
  · intro hble required available
    rw [hred, if_neg hnotpos, if_neg (not_lt.mpr hble)]
    rcases commitPhase_fst uid f ((cartFindByUser s uid).map fun l => (l, findBook s l.book))
        (cartTotal s uid) s with ⟨o, ho⟩ | ⟨e, he⟩
    · rw [ho]; simp
    · rw [he]; simp

/-- Closed witness: user 200 (balance 5, total 10) hits the balance gate with
`required = 10`, `available = 5`; user 300 (balance 27, total exactly 27)
passes it. -/
theorem createOrder_balance_gate_witness :
    (createOrder wStore 200 noFaults =
      (.insufficientBalance (cartTotal wStore 200) ((⟨200, 5⟩ : UserAcct).balance), wStore)) ∧
    (∀ required available,
      (createOrder wStore 300 noFaults).1 ≠ .insufficientBalance required available) := by
  constructor
  · refine (createOrder_balance_gate wStore 200 noFaults ⟨200, 5⟩
      (by decide) (by decide) ?_ ?_).1 (by decide)
    · intro l hl
      have hc : cartFindByUser wStore 200 = [⟨200, 1, 1⟩] := by decide
      rw [hc] at hl
      have hle : l = ⟨200, 1, 1⟩ := by simpa using hl
      subst hle
      exact ⟨⟨1, "Dune", 10, 5⟩, by decide⟩
    · intro l hl b hb
      have hc : cartFindByUser wStore 200 = [⟨200, 1, 1⟩] := by decide
      rw [hc] at hl
      have hle : l = ⟨200, 1, 1⟩ := by simpa using hl
      subst hle
      have h1 : findBook wStore 1 = some ⟨1, "Dune", 10, 5⟩ := by decide
      have hb' : findBook wStore 1 = some b := hb
      cases Option.some.inj (h1.symm.trans hb')
      decide
  · refine (createOrder_balance_gate wStore 300 noFaults ⟨300, 27⟩
      (by decide) (by decide) ?_ ?_).2 (by decide)
    · intro l hl
      have hc : cartFindByUser wStore 300 = [⟨300, 1, 2⟩, ⟨300, 2, 1⟩] := by decide
      rw [hc] at hl
      rcases List.mem_cons.mp hl with h | h
      · subst h
        exact ⟨⟨1, "Dune", 10, 5⟩, by decide⟩
      · have hle : l = ⟨300, 2, 1⟩ := by simpa using h
        subst hle
        exact ⟨⟨2, "Hobbit", 7, 3⟩, by decide⟩
    · intro l hl b hb
      have hc : cartFindByUser wStore 300 = [⟨300, 1, 2⟩, ⟨300, 2, 1⟩] := by decide
      rw [hc] at hl
      rcases List.mem_cons.mp hl with h | h
      · subst h
        have h1 : findBook wStore 1 = some ⟨1, "Dune", 10, 5⟩ := by decide
        have hb' : findBook wStore 1 = some b := hb
        cases Option.some.inj (h1.symm.trans hb')
        decide
      · have hle : l = ⟨300, 2, 1⟩ := by simpa using h
        subst hle
        have h2 : findBook wStore 2 = some ⟨2, "Hobbit", 7, 3⟩ := by decide
        have hb' : findBook wStore 2 = some b := hb
        cases Option.some.inj (h2.symm.trans hb')
        decide

/-- Claim C1: on a non-empty cart whose lines reference existing, pairwise
distinct books, each with stock covering its quantity, and whose total
`Σ price×quantity` is within the account balance, fault-free checkout
succeeds: exactly one order is appended, with status `pending` and
`totalPrice` equal to that sum; every referenced book's stock drops by
exactly its line's quantity; the balance drops by exactly `totalPrice`; and
the user's cart is left empty. -/
theorem createOrder_success_atomic (s : Store) (uid : Nat) (user : UserAcct)
    (hne : cartFindByUser s uid ≠ [])
    (huser : findUser s uid = some user)
    (hbooks : ∀ l ∈ cartFindByUser s uid, ∃ b, findBook s l.book = some b)
    (hstock : ∀ l ∈ cartFindByUser s uid, ∀ b, findBook s l.book = some b →
        (l.quantity : Int) ≤ b.stock)
    (hnodup : ((cartFindByUser s uid).map CartLine.book).Nodup)
    (hbal : (cartTotal s uid : Int) ≤ user.balance) :
    ∃ o,
      (createOrder s uid noFaults).1 = .created o ∧
      o.status = "pending" ∧
      o.totalPrice = cartTotal s uid ∧
      (createOrder s uid noFaults).2.orders = s.orders ++ [o] ∧
      (∀ l ∈ cartFindByUser s uid, ∀ b, findBook s l.book = some b →
        findBook (createOrder s uid noFaults).2 l.book =
          some { b with stock := b.stock - l.quantity }) ∧
      (∃ u, findUser (createOrder s uid noFaults).2 uid = some u ∧
        u.balance = user.balance - cartTotal s uid) ∧
      cartFindByUser (createOrder s uid noFaults).2 uid = [] := by
  have hred := createOrder_validation_eq s uid noFaults user hne huser hbooks
  have herrs : shortageRecords s uid = [] := by
    rw [shortageRecords, List.filterMap_eq_nil]
    intro l hl
    obtain ⟨b, hb⟩ := hbooks l hl
    have hq := hstock l hl b hb
    simp [hb, not_lt.mpr hq]
  have hnotpos : ¬ (shortageRecords s uid).length > 0 := by simp [herrs]
  have hco : createOrder s uid noFaults =
      commitPhase uid noFaults ((cartFindByUser s uid).map fun l => (l, findBook s l.book))
        (cartTotal s uid) s := by
    rw [hred, if_neg hnotpos, if_neg (not_lt.mpr hbal)]
  have hb' : ∀ l ∈ cartFindByUser s uid, ∃ b, findBook s l.book = some b ∧
      (l.quantity : Int) ≤ b.stock := by
    intro l hl
    obtain ⟨b, hb⟩ := hbooks l hl
    exact ⟨b, hb, hstock l hl b hb⟩
  obtain ⟨s', processed, hrun, hbooksmap, husers, hcarts, horders, hnext, hother, hdecd⟩ :=
    commitLoop_ok noFaults s (cartFindByUser s uid) 0 [] (fun _ => rfl) hb' hnodup
  have hrun' : commitLoop noFaults ((cartFindByUser s uid).map fun l => (l, findBook s l.book))
      0 s [] = (s', processed, none) := by simpa using hrun
  have hnf1 : noFaults.debitFail = false := rfl
  have hnf2 : noFaults.createFail = false := rfl
  have hnf3 : noFaults.clearFail = false := rfl
  rw [hco]
  simp only [commitPhase]
  rw [hrun']
  simp only [hnf1, hnf2, hnf3, Bool.false_eq_true, if_false, debitBalance]
  refine ⟨_, rfl, rfl, rfl, ?_, ?_, ?_, ?_⟩
  · show s'.orders ++ _ = s.orders ++ _
    rw [horders]
  · intro l hl b hb
    exact hdecd l hl b hb
  · have husers2 : findUser s' uid = some user := by
      show s'.users.find? (fun u => u.id == uid) = some user
      rw [husers]
      exact huser
    exact ⟨{ user with balance := user.balance - (cartTotal s uid : Int) },
      findUser_debitBalance_self s' uid (cartTotal s uid) user husers2, rfl⟩
  · exact filter_user_clear s'.carts uid

/-- Closed witness: user 100 checks out two lines (books 1 and 2) against
store `wStore`; the created order is pending with total 27, stocks drop to
3 and 2, the balance drops to 973, and the cart is emptied. -/
theorem createOrder_success_atomic_witness :
    ∃ o,
      (createOrder wStore 100 noFaults).1 = .created o ∧
      o.status = "pending" ∧
      o.totalPrice = cartTotal wStore 100 ∧
      (createOrder wStore 100 noFaults).2.orders = wStore.orders ++ [o] ∧
      (∀ l ∈ cartFindByUser wStore 100, ∀ b, findBook wStore l.book = some b →
        findBook (createOrder wStore 100 noFaults).2 l.book =
          some { b with stock := b.stock - l.quantity }) ∧
      (∃ u, findUser (createOrder wStore 100 noFaults).2 100 = some u ∧
        u.balance = (⟨100, 1000⟩ : UserAcct).balance - cartTotal wStore 100) ∧
      cartFindByUser (createOrder wStore 100 noFaults).2 100 = [] := by
  refine createOrder_success_atomic wStore 100 ⟨100, 1000⟩
    (by decide) (by decide) ?_ ?_ (by decide) (by decide)
  · intro l hl
    have hc : cartFindByUser wStore 100 = [⟨100, 1, 2⟩, ⟨100, 2, 1⟩] := by decide
    rw [hc] at hl
    rcases List.mem_cons.mp hl with h | h
    · subst h
      exact ⟨⟨1, "Dune", 10, 5⟩, by decide⟩
    · have hle : l = ⟨100, 2, 1⟩ := by simpa using h
      subst hle
      exact ⟨⟨2, "Hobbit", 7, 3⟩, by decide⟩
  · intro l hl b hb
    have hc : cartFindByUser wStore 100 = [⟨100, 1, 2⟩, ⟨100, 2, 1⟩] := by decide
    rw [hc] at hl
    rcases List.mem_cons.mp hl with h | h
    · subst h
      have h1 : findBook wStore 1 = some ⟨1, "Dune", 10, 5⟩ := by decide
      have hb' : findBook wStore 1 = some b := hb
      cases Option.some.inj (h1.symm.trans hb')
      decide
    · have hle : l = ⟨100, 2, 1⟩ := by simpa using h
      subst hle
      have h2 : findBook wStore 2 = some ⟨2, "Hobbit", 7, 3⟩ := by decide
      have hb' : findBook wStore 2 = some b := hb
      cases Option.some.inj (h2.symm.trans hb')
      decide

/-- Claim C3: when a checkout that passed validation loses a conditional
decrement mid-commit (injected fault at any in-range position) and every
compensating increment succeeds, the whole store is restored exactly: every
book of the succeeded prefix gets its stock back (and no other book's stock
moves), no order is created, the cart is not cleared, and the caller sees
the 500 race error. -/
theorem createOrder_compensates_partial_failure (s : Store) (uid : Nat) (f : Faults)
    (user : UserAcct)
    (hne : cartFindByUser s uid ≠ [])
    (huser : findUser s uid = some user)
    (hbooks : ∀ l ∈ cartFindByUser s uid, ∃ b, findBook s l.book = some b)
    (hstock : ∀ l ∈ cartFindByUser s uid, ∀ b, findBook s l.book = some b →
        (l.quantity : Int) ≤ b.stock)
    (hnodup : ((cartFindByUser s uid).map CartLine.book).Nodup)
    (hbal : (cartTotal s uid : Int) ≤ user.balance)
    (hfault : ∃ j, j < (cartFindByUser s uid).length ∧ f.decFail j = true)
    (hcomp : ∀ k, f.compFail k = false) :
    ∃ title, createOrder s uid f = (.thrown (.raceStock title), s) := by
  have hred := createOrder_validation_eq s uid f user hne huser hbooks
  have herrs : shortageRecords s uid = [] := by
    rw [shortageRecords, List.filterMap_eq_nil]
    intro l hl
    obtain ⟨b, hb⟩ := hbooks l hl
    have hq := hstock l hl b hb
    simp [hb, not_lt.mpr hq]
  have hnotpos : ¬ (shortageRecords s uid).length > 0 := by simp [herrs]
  have hco : createOrder s uid f =
      commitPhase uid f ((cartFindByUser s uid).map fun l => (l, findBook s l.book))
        (cartTotal s uid) s := by
    rw [hred, if_neg hnotpos, if_neg (not_lt.mpr hbal)]
  have hb' : ∀ l ∈ cartFindByUser s uid, ∃ b, findBook s l.book = some b ∧
      (l.quantity : Int) ≤ b.stock := by
    intro l hl
    obtain ⟨b, hb⟩ := hbooks l hl
    exact ⟨b, hb, hstock l hl b hb⟩
  have hfault0 : ∃ j, j < (cartFindByUser s uid).length ∧ f.decFail (0 + j) = true := by
    obtain ⟨j, hj1, hj2⟩ := hfault
    exact ⟨j, hj1, by simpa using hj2⟩
  obtain ⟨s', processed, title, hrun, hbooksmap, husers, hcarts, horders, hnext⟩ :=
    commitLoop_fail f s (cartFindByUser s uid) 0 [] hb' hnodup hfault0
  have hrun' : commitLoop f ((cartFindByUser s uid).map fun l => (l, findBook s l.book))
      0 s [] = (s', processed, some (.raceStock title)) := by simpa using hrun
  obtain ⟨s'', hcrun, hcbooks, hcusers, hccarts, hcorders, hcnext⟩ :=
    compensateLoop_ok f processed 0 s' hcomp
  have hss : s'' = s := by
    refine store_eq s'' s ?_ ?_ ?_ ?_ ?_
    · rw [hcbooks, hbooksmap]
      exact books_roundtrip processed s.books
    · rw [hcusers, husers]
    · rw [hccarts, hcarts]
    · rw [hcorders, horders]
    · rw [hcnext, hnext]
  refine ⟨title, ?_⟩
  rw [hco]
  simp only [commitPhase]
  rw [hrun']
  simp only [catchBlock, hcrun]
  rw [hss]

/-- Closed witness: user 100's checkout against `wStore` with the second
decrement failing ends in the race error with the store fully restored. -/
theorem createOrder_compensates_partial_failure_witness :
    ∃ title, createOrder wStore 100 (decFailAt 1) = (.thrown (.raceStock title), wStore) := by
  refine createOrder_compensates_partial_failure wStore 100 (decFailAt 1) ⟨100, 1000⟩
    (by decide) (by decide) ?_ ?_ (by decide) (by decide)
    ⟨1, by decide, by decide⟩ (fun k => rfl)
  · intro l hl
    have hc : cartFindByUser wStore 100 = [⟨100, 1, 2⟩, ⟨100, 2, 1⟩] := by decide
    rw [hc] at hl
    rcases List.mem_cons.mp hl with h | h
    · subst h
      exact ⟨⟨1, "Dune", 10, 5⟩, by decide⟩
    · have hle : l = ⟨100, 2, 1⟩ := by simpa using h
      subst hle
      exact ⟨⟨2, "Hobbit", 7, 3⟩, by decide⟩
  · intro l hl b hb
    have hc : cartFindByUser wStore 100 = [⟨100, 1, 2⟩, ⟨100, 2, 1⟩] := by decide
    rw [hc] at hl
    rcases List.mem_cons.mp hl with h | h
    · subst h
      have h1 : findBook wStore 1 = some ⟨1, "Dune", 10, 5⟩ := by decide
      have hb' : findBook wStore 1 = some b := hb
      cases Option.some.inj (h1.symm.trans hb')
      decide
    · have hle : l = ⟨100, 2, 1⟩ := by simpa using h
      subst hle
      have h2 : findBook wStore 2 = some ⟨2, "Hobbit", 7, 3⟩ := by decide
      have hb' : findBook wStore 2 = some b := hb
      cases Option.some.inj (h2.symm.trans hb')
      decide

/-- Claim C2, counterexample: a checkout that fails at `Order.create` (after
the balance debit) throws a 500, yet the caller's balance has moved from
1000 to 973 — the account is not restored, so a failed checkout does not
always leave the balance unchanged. -/
theorem createOrder_failed_balance_changed_cex :
    (createOrder wStore 100 createFailOnly).1 = .thrown .createErr ∧
    findUser wStore 100 = some ⟨100, 1000⟩ ∧
    findUser (createOrder wStore 100 createFailOnly).2 100 = some ⟨100, 973⟩ ∧
    findUser (createOrder wStore 100 createFailOnly).2 100 ≠ findUser wStore 100 := by
  decide

/-- Claim C2, amended: a checkout failing in the commit phase restores every
book's stock (the rollback loop reverses the decrements), but the `catch`
block never re-credits the account: when the failure happens after the
debit (at `Order.create`), the final store is exactly the initial store
with the balance still debited by `totalPrice`. -/
theorem createOrder_createFail_keeps_debit (s : Store) (uid : Nat) (f : Faults)
    (user : UserAcct)
    (hne : cartFindByUser s uid ≠ [])
    (huser : findUser s uid = some user)
    (hbooks : ∀ l ∈ cartFindByUser s uid, ∃ b, findBook s l.book = some b)
    (hstock : ∀ l ∈ cartFindByUser s uid, ∀ b, findBook s l.book = some b →
        (l.quantity : Int) ≤ b.stock)
    (hnodup : ((cartFindByUser s uid).map CartLine.book).Nodup)
    (hbal : (cartTotal s uid : Int) ≤ user.balance)
    (hdec : ∀ j, f.decFail j = false)
    (hdeb : f.debitFail = false)
    (hcreate : f.createFail = true)
    (hcomp : ∀ k, f.compFail k = false) :
    createOrder s uid f = (.thrown .createErr, debitBalance s uid (cartTotal s uid)) := by
  have hred := createOrder_validation_eq s uid f user hne huser hbooks
  have herrs : shortageRecords s uid = [] := by
    rw [shortageRecords, List.filterMap_eq_nil]
    intro l hl
    obtain ⟨b, hb⟩ := hbooks l hl
    have hq := hstock l hl b hb
    simp [hb, not_lt.mpr hq]
  have hnotpos : ¬ (shortageRecords s uid).length > 0 := by simp [herrs]
  have hco : createOrder s uid f =
      commitPhase uid f ((cartFindByUser s uid).map fun l => (l, findBook s l.book))
        (cartTotal s uid) s := by
    rw [hred, if_neg hnotpos, if_neg (not_lt.mpr hbal)]
  have hb' : ∀ l ∈ cartFindByUser s uid, ∃ b, findBook s l.book = some b ∧
      (l.quantity : Int) ≤ b.stock := by
    intro l hl
    obtain ⟨b, hb⟩ := hbooks l hl
    exact ⟨b, hb, hstock l hl b hb⟩
  obtain ⟨s', processed, hrun, hbooksmap, husers, hcarts, horders, hnext, hother, hdecd⟩ :=
    commitLoop_ok f s (cartFindByUser s uid) 0 [] hdec hb' hnodup
  have hrun' : commitLoop f ((cartFindByUser s uid).map fun l => (l, findBook s l.book))
      0 s [] = (s', processed, none) := by simpa using hrun
  obtain ⟨s'', hcrun, hcbooks, hcusers, hccarts, hcorders, hcnext⟩ :=
    compensateLoop_ok f processed 0 (debitBalance s' uid (cartTotal s uid)) hcomp
  have hss : s'' = debitBalance s uid (cartTotal s uid) := by
    refine store_eq s'' (debitBalance s uid (cartTotal s uid)) ?_ ?_ ?_ ?_ ?_
    · rw [hcbooks]
      show s'.books.map (incsFun processed) = s.books
      rw [hbooksmap]
      exact books_roundtrip processed s.books
    · rw [hcusers]
      show (debitBalance s' uid (cartTotal s uid)).users = _
      simp only [debitBalance, husers]
    · rw [hccarts]
      exact hcarts
    · rw [hcorders]
      exact horders
    · rw [hcnext]
      exact hnext
  rw [hco]
  simp only [commitPhase]
  rw [hrun']
  simp only [hdeb, Bool.false_eq_true, if_false, hcreate, if_true]
  simp only [catchBlock, hcrun]
  rw [hss]

/-- Closed witness for the amended C2: user 100's checkout with a failing
`Order.create` ends with stocks restored and the balance still debited. -/
theorem createOrder_createFail_keeps_debit_witness :
    createOrder wStore 100 createFailOnly =
      (.thrown .createErr, debitBalance wStore 100 (cartTotal wStore 100)) := by
  refine createOrder_createFail_keeps_debit wStore 100 createFailOnly ⟨100, 1000⟩
    (by decide) (by decide) ?_ ?_ (by decide) (by decide)
    (fun _ => rfl) rfl rfl (fun _ => rfl)
  · intro l hl
    have hc : cartFindByUser wStore 100 = [⟨100, 1, 2⟩, ⟨100, 2, 1⟩] := by decide
    rw [hc] at hl
    rcases List.mem_cons.mp hl with h | h
    · subst h
      exact ⟨⟨1, "Dune", 10, 5⟩, by decide⟩
    · have hle : l = ⟨100, 2, 1⟩ := by simpa using h
      subst hle
      exact ⟨⟨2, "Hobbit", 7, 3⟩, by decide⟩
  · intro l hl b hb
    have hc : cartFindByUser wStore 100 = [⟨100, 1, 2⟩, ⟨100, 2, 1⟩] := by decide
    rw [hc] at hl
    rcases List.mem_cons.mp hl with h | h
    · subst h
      have h1 : findBook wStore 1 = some ⟨1, "Dune", 10, 5⟩ := by decide
      have hb' : findBook wStore 1 = some b := hb
      cases Option.some.inj (h1.symm.trans hb')
      decide
    · have hle : l = ⟨100, 2, 1⟩ := by simpa using h
      subst hle
      have h2 : findBook wStore 2 = some ⟨2, "Hobbit", 7, 3⟩ := by decide
      have hb' : findBook wStore 2 = some b := hb
      cases Option.some.inj (h2.symm.trans hb')
      decide

/-- Claim C4, counterexample: user 500's checkout loses the third decrement
(original error: race on "Ulysses") and the first compensating increment
rejects; the caller receives the compensation failure `compErr 1` — not the
original error — and the second processed book (id 2) is left decremented
(stock 2 instead of 3), i.e. the remaining entries are not compensated. -/
theorem createOrder_compFail_cex :
    (createOrder wStore 500 (decFailAtCompFail0 2)).1 = .thrown (.compErr 1) ∧
    (createOrder wStore 500 (decFailAtCompFail0 2)).1 ≠ .thrown (.raceStock "Ulysses") ∧
    findBook wStore 2 = some ⟨2, "Hobbit", 7, 3⟩ ∧
    findBook (createOrder wStore 500 (decFailAtCompFail0 2)).2 2 =
      some ⟨2, "Hobbit", 7, 2⟩ := by
  decide

/-- Claim C4, amended: when the commit loop fails with original error `e`
after a non-empty processed list and the first compensating increment
itself rejects, the rollback loop aborts at once: no stock is restored (the
final store is the store at the moment of the commit failure, every
processed book still decremented) and the error that reaches the caller is
the compensation failure, not `e`. -/
theorem commitPhase_compFail_aborts (uid : Nat) (f : Faults)
    (items : List (CartLine × Option Book)) (total : Nat) (s s' : Store)
    (p : ProcessedItem) (rest : List ProcessedItem) (e : CheckoutErr)
    (hrun : commitLoop f items 0 s [] = (s', p :: rest, some e))
    (hcomp0 : f.compFail 0 = true) :
    commitPhase uid f items total s = (.thrown (.compErr p.bookId), s') := by
  simp only [commitPhase]
  rw [hrun]
  simp only [catchBlock, compensateLoop_abort_head f p rest 0 s' hcomp0]

/-- Closed witness for the amended C4 on the concrete three-line commit. -/
theorem commitPhase_compFail_aborts_witness :
    commitLoop (decFailAtCompFail0 2)
        ((cartFindByUser wStore 500).map fun l => (l, findBook wStore l.book)) 0 wStore [] =
      ({ wStore with
           books := [⟨1, "Dune", 10, 4⟩, ⟨2, "Hobbit", 7, 2⟩, ⟨3, "Ulysses", 20, 1⟩] },
       [⟨1, 1, ⟨1, "Dune", 10, 4⟩⟩, ⟨2, 1, ⟨2, "Hobbit", 7, 2⟩⟩],
       some (.raceStock "Ulysses")) ∧
    (decFailAtCompFail0 2).compFail 0 = true ∧
    commitPhase 500 (decFailAtCompFail0 2)
        ((cartFindByUser wStore 500).map fun l => (l, findBook wStore l.book))
        (cartTotal wStore 500) wStore =
      (.thrown (.compErr 1),
       { wStore with
           books := [⟨1, "Dune", 10, 4⟩, ⟨2, "Hobbit", 7, 2⟩, ⟨3, "Ulysses", 20, 1⟩] }) :=
  ⟨by decide, by decide,
   commitPhase_compFail_aborts 500 (decFailAtCompFail0 2)
     ((cartFindByUser wStore 500).map fun l => (l, findBook wStore l.book))
     (cartTotal wStore 500) wStore
     { wStore with
         books := [⟨1, "Dune", 10, 4⟩, ⟨2, "Hobbit", 7, 2⟩, ⟨3, "Ulysses", 20, 1⟩] }
     ⟨1, 1, ⟨1, "Dune", 10, 4⟩⟩ [⟨2, 1, ⟨2, "Hobbit", 7, 2⟩⟩] (.raceStock "Ulysses")
     (by decide) (by decide)⟩

/-- Claim C7: on any store with unique book ids (the Mongo `_id` invariant)
and all stocks non-negative, every operation of the checkout core preserves
`stock ≥ 0`: the conditional decrement (which only fires when
`stock ≥ quantity` at the moment of the write), the compensating increment,
and — composing them across the commit loop, the rollback loop and every
fault schedule — any complete `createOrder` execution. -/
theorem checkout_stock_nonneg (s : Store)
    (hids : (s.books.map Book.id).Nodup)
    (hinv : ∀ b ∈ s.books, 0 ≤ b.stock) :
    (∀ bid qty, ∀ b' ∈ (condDecrementStock s bid qty).2.books, 0 ≤ b'.stock) ∧
    (∀ bid qty, ∀ b' ∈ (incrementStock s bid qty).books, 0 ≤ b'.stock) ∧
    (∀ uid f, ∀ b' ∈ (createOrder s uid f).2.books, 0 ≤ b'.stock) :=
  ⟨fun bid qty => stocks_nonneg_condDec s bid qty hids hinv,
   fun bid qty => stocks_nonneg_inc s bid qty hinv,
   fun uid f => stocks_nonneg_createOrder s uid f hids hinv⟩

/-- Closed witness for the invariant on the concrete store, including a
faulty run that exercises decrements and a failing compensation. -/
theorem checkout_stock_nonneg_witness :
    ((wStore.books.map Book.id).Nodup) ∧
    (∀ b ∈ wStore.books, 0 ≤ b.stock) ∧
    (∀ b' ∈ (createOrder wStore 500 (decFailAtCompFail0 2)).2.books, 0 ≤ b'.stock) :=
  ⟨by decide, by decide,
   (checkout_stock_nonneg wStore (by decide) (by decide)).2.2 500 (decFailAtCompFail0 2)⟩

end BookStore
